import Mathlib

set_option maxRecDepth 100000

/-!
Verification of the `bdaddr` crate (Bluetooth Device Address library).

Shallow embedding of `src/addr.rs` and `src/addr/matches.rs`:
bytes are `Nat` (with `< 256` stated where it matters), byte arrays are
`List Nat`, Rust strings are `List Char`, fallible operations return
`Option` or `Except`.
-/

/-- Bluetooth Device Address without address type (`struct BdAddr([u8; 6])`). -/
structure BdAddr where
  bytes : List Nat
deriving DecidableEq, Repr

/-- `impl From<[u8; 6]> for BdAddr`. -/
def BdAddr.fromBytes (v : List Nat) : BdAddr := ⟨v⟩

/-- LE Public Device Address (`struct PublicDeviceAddress(BdAddr)`). -/
structure PublicDeviceAddress where
  addr : BdAddr
deriving DecidableEq, Repr

/-- LE Non-Resolvable Private Address (`struct NonResolvablePrivateAddress(BdAddr)`). -/
structure NonResolvablePrivateAddress where
  addr : BdAddr
deriving DecidableEq, Repr

/-- LE Resolvable Private Address (`struct ResolvablePrivateAddress(BdAddr)`). -/
structure ResolvablePrivateAddress where
  addr : BdAddr
deriving DecidableEq, Repr

/-- LE Static Device Address (`struct StaticDeviceAddress(BdAddr)`). -/
structure StaticDeviceAddress where
  addr : BdAddr
deriving DecidableEq, Repr

/-- LE Random Device Address (`enum RandomDeviceAddress`). -/
inductive RandomDeviceAddress where
  | NonResolvable (v : NonResolvablePrivateAddress)
  | Resolvable (v : ResolvablePrivateAddress)
  | Static (v : StaticDeviceAddress)
  | Unknown (v : BdAddr)
deriving DecidableEq, Repr

/-- Bluetooth Device Address (`enum Address`). -/
inductive Address where
  | BrEdr (v : BdAddr)
  | LePublic (v : PublicDeviceAddress)
  | LeRandom (v : RandomDeviceAddress)
deriving DecidableEq, Repr

/-- `NonResolvablePrivateAddress::TAG = 0b00`. -/
def NonResolvablePrivateAddress.TAG : Nat := 0

/-- `ResolvablePrivateAddress::TAG = 0b01`. -/
def ResolvablePrivateAddress.TAG : Nat := 1

/-- `StaticDeviceAddress::TAG = 0b11`. -/
def StaticDeviceAddress.TAG : Nat := 3

/-- Error of the strict sub-type constructors
(`struct InvalidBitsForAddressType(u8, u8)`: expected tag, actual tag). -/
structure InvalidBitsForAddressType where
  expected : Nat
  actual : Nat
deriving DecidableEq, Repr

/-- The 2-bit tag `(v[5] & 0xC0) >> 6` extracted by the sub-type constructors. -/
def tagOfBytes (v : List Nat) : Nat := (v.getD 5 0 &&& 0xC0) >>> 6

/-- `impl TryFrom<[u8; 6]> for NonResolvablePrivateAddress` (src/addr.rs lines 119-129). -/
def NonResolvablePrivateAddress.tryFrom (v : List Nat) :
    Except InvalidBitsForAddressType NonResolvablePrivateAddress :=
  if tagOfBytes v = NonResolvablePrivateAddress.TAG then
    .ok ⟨⟨v⟩⟩
  else
    .error ⟨NonResolvablePrivateAddress.TAG, tagOfBytes v⟩

/-- `impl TryFrom<[u8; 6]> for ResolvablePrivateAddress` (src/addr.rs lines 151-161). -/
def ResolvablePrivateAddress.tryFrom (v : List Nat) :
    Except InvalidBitsForAddressType ResolvablePrivateAddress :=
  if tagOfBytes v = ResolvablePrivateAddress.TAG then
    .ok ⟨⟨v⟩⟩
  else
    .error ⟨ResolvablePrivateAddress.TAG, tagOfBytes v⟩

/-- `impl TryFrom<[u8; 6]> for StaticDeviceAddress` (src/addr.rs lines 183-193). -/
def StaticDeviceAddress.tryFrom (v : List Nat) :
    Except InvalidBitsForAddressType StaticDeviceAddress :=
  if tagOfBytes v = StaticDeviceAddress.TAG then
    .ok ⟨⟨v⟩⟩
  else
    .error ⟨StaticDeviceAddress.TAG, tagOfBytes v⟩

/-- `RandomDeviceAddress::new` (src/addr.rs lines 223-234): lenient
classification by `(addr.0[5] & 0xC0) >> 6`, falling back to `Unknown`. -/
def RandomDeviceAddress.new (addr : BdAddr) : RandomDeviceAddress :=
  match (addr.bytes.getD 5 0 &&& 0xC0) >>> 6 with
  | 0 => .NonResolvable ⟨addr⟩
  | 1 => .Resolvable ⟨addr⟩
  | 3 => .Static ⟨addr⟩
  | _ => .Unknown addr

/-- `Address::bredr_from`. -/
def Address.bredr_from (b : List Nat) : Address := .BrEdr ⟨b⟩

/-- `Address::le_public_from`. -/
def Address.le_public_from (b : List Nat) : Address := .LePublic ⟨⟨b⟩⟩

/-- `Address::le_random_from`. -/
def Address.le_random_from (b : List Nat) : Address :=
  .LeRandom (RandomDeviceAddress.new ⟨b⟩)

/-- `Address::into_bd_addr` (src/addr.rs lines 308-319): total extraction of
the underlying raw bytes, discarding the type tag. -/
def Address.into_bd_addr : Address → BdAddr
  | .BrEdr addr => addr
  | .LePublic ⟨addr⟩ => addr
  | .LeRandom (.NonResolvable ⟨addr⟩) => addr
  | .LeRandom (.Resolvable ⟨addr⟩) => addr
  | .LeRandom (.Static ⟨addr⟩) => addr
  | .LeRandom (.Unknown addr) => addr

/-!
## AES-128 (single-block encryption)

Model of the `aes` crate's `Aes128::encrypt_block` used by
`Address::matches`, i.e. the FIPS-197 AES-128 cipher: byte-level
implementation over `List Nat` (block and key are 16 bytes each).
-/

/-- The AES S-box (FIPS-197, Figure 7). -/
def sboxTable : List Nat :=
[99, 124, 119, 123, 242, 107, 111, 197, 48, 1, 103, 43, 254, 215, 171, 118,
202, 130, 201, 125, 250, 89, 71, 240, 173, 212, 162, 175, 156, 164, 114, 192,
183, 253, 147, 38, 54, 63, 247, 204, 52, 165, 229, 241, 113, 216, 49, 21,
4, 199, 35, 195, 24, 150, 5, 154, 7, 18, 128, 226, 235, 39, 178, 117,
9, 131, 44, 26, 27, 110, 90, 160, 82, 59, 214, 179, 41, 227, 47, 132,
83, 209, 0, 237, 32, 252, 177, 91, 106, 203, 190, 57, 74, 76, 88, 207,
208, 239, 170, 251, 67, 77, 51, 133, 69, 249, 2, 127, 80, 60, 159, 168,
81, 163, 64, 143, 146, 157, 56, 245, 188, 182, 218, 33, 16, 255, 243, 210,
205, 12, 19, 236, 95, 151, 68, 23, 196, 167, 126, 61, 100, 93, 25, 115,
96, 129, 79, 220, 34, 42, 144, 136, 70, 238, 184, 20, 222, 94, 11, 219,
224, 50, 58, 10, 73, 6, 36, 92, 194, 211, 172, 98, 145, 149, 228, 121,
231, 200, 55, 109, 141, 213, 78, 169, 108, 86, 244, 234, 101, 122, 174, 8,
186, 120, 37, 46, 28, 166, 180, 198, 232, 221, 116, 31, 75, 189, 139, 138,
112, 62, 181, 102, 72, 3, 246, 14, 97, 53, 87, 185, 134, 193, 29, 158,
225, 248, 152, 17, 105, 217, 142, 148, 155, 30, 135, 233, 206, 85, 40, 223,
140, 161, 137, 13, 191, 230, 66, 104, 65, 153, 45, 15, 176, 84, 187, 22]

/-- S-box lookup. -/
def sbox (b : Nat) : Nat := sboxTable.getD b 0

/-- Multiplication by `x` in GF(2^8) modulo `x^8 + x^4 + x^3 + x + 1`. -/
def xtime (b : Nat) : Nat :=
  if b < 128 then (b <<< 1) &&& 255 else ((b <<< 1) ^^^ 0x1b) &&& 255

/-- Multiplication by 3 in GF(2^8). -/
def mul3 (b : Nat) : Nat := xtime b ^^^ b

/-- Round constants for AES-128 key expansion. -/
def rcon : List Nat := [1, 2, 4, 8, 16, 32, 64, 128, 27, 54]

/-- XOR two byte sequences componentwise. -/
def xorBytes (a b : List Nat) : List Nat := List.zipWith (fun x y => x ^^^ y) a b

/-- `SubWord`: apply the S-box to each byte of a 4-byte word. -/
def subWord (w : List Nat) : List Nat := w.map sbox

/-- `RotWord`: rotate a 4-byte word left by one byte. -/
def rotWord (w : List Nat) : List Nat := w.drop 1 ++ w.take 1

/-- The next word of the AES-128 key schedule, given the words so far. -/
def nextWord (ws : List (List Nat)) : List Nat :=
  let i := ws.length
  let prev := ws.getD (i - 1) []
  let back := ws.getD (i - 4) []
  let temp :=
    if i % 4 = 0 then
      xorBytes (subWord (rotWord prev)) [rcon.getD (i / 4 - 1) 0, 0, 0, 0]
    else prev
  xorBytes back temp

/-- Iterate `nextWord` to extend the key schedule by `n` words. -/
def expandWords (ws : List (List Nat)) : Nat → List (List Nat)
  | 0 => ws
  | n + 1 => expandWords (ws ++ [nextWord ws]) n

/-- AES-128 key schedule: the 44 four-byte words of FIPS-197 §5.2. -/
def keySchedule (key : List Nat) : List (List Nat) :=
  expandWords [key.take 4, (key.drop 4).take 4, (key.drop 8).take 4, (key.drop 12).take 4] 40

/-- Round key `n` as 16 bytes (words `4n .. 4n+3` flattened). -/
def roundKey (ws : List (List Nat)) (n : Nat) : List Nat :=
  ws.getD (4 * n) [] ++ ws.getD (4 * n + 1) [] ++ ws.getD (4 * n + 2) [] ++ ws.getD (4 * n + 3) []

/-- `AddRoundKey`. -/
def addRoundKey (rk st : List Nat) : List Nat := xorBytes st rk

/-- `SubBytes`. -/
def subBytes (st : List Nat) : List Nat := st.map sbox

/-- Byte at index `i` of a state (0 when out of range). -/
def nthB (st : List Nat) (i : Nat) : Nat := st.getD i 0

/-- `ShiftRows` on the flat, column-major 16-byte state. -/
def shiftRows (st : List Nat) : List Nat :=
  [nthB st 0, nthB st 5, nthB st 10, nthB st 15,
   nthB st 4, nthB st 9, nthB st 14, nthB st 3,
   nthB st 8, nthB st 13, nthB st 2, nthB st 7,
   nthB st 12, nthB st 1, nthB st 6, nthB st 11]

/-- `MixColumns` on one 4-byte column. -/
def mixColumn (c : List Nat) : List Nat :=
  let a0 := nthB c 0
  let a1 := nthB c 1
  let a2 := nthB c 2
  let a3 := nthB c 3
  [xtime a0 ^^^ mul3 a1 ^^^ a2 ^^^ a3,
   a0 ^^^ xtime a1 ^^^ mul3 a2 ^^^ a3,
   a0 ^^^ a1 ^^^ xtime a2 ^^^ mul3 a3,
   mul3 a0 ^^^ a1 ^^^ a2 ^^^ xtime a3]

/-- `MixColumns` on the whole state. -/
def mixColumns (st : List Nat) : List Nat :=
  mixColumn (st.take 4) ++ mixColumn ((st.drop 4).take 4) ++
  mixColumn ((st.drop 8).take 4) ++ mixColumn ((st.drop 12).take 4)

/-- One middle AES round. -/
def aesRound (rk st : List Nat) : List Nat :=
  addRoundKey rk (mixColumns (shiftRows (subBytes st)))

/-- The final AES round (no `MixColumns`). -/
def aesFinalRound (rk st : List Nat) : List Nat :=
  addRoundKey rk (shiftRows (subBytes st))

/-- AES-128 single-block encryption (FIPS-197 §5.1), as performed by the
`aes` crate's `Aes128::new(&k)` / `encrypt_block`. -/
def aes128Encrypt (key block : List Nat) : List Nat :=
  let ws := keySchedule key
  let st0 := addRoundKey (roundKey ws 0) block
  let st9 := (List.range 9).foldl (fun st n => aesRound (roundKey ws (n + 1)) st) st0
  aesFinalRound (roundKey ws 10) st9

/-- Sanity: the FIPS-197 Appendix C.1 test vector. -/
theorem aes128_fips197_vector :
    aes128Encrypt
      [0x00, 0x01, 0x02, 0x03, 0x04, 0x05, 0x06, 0x07,
       0x08, 0x09, 0x0a, 0x0b, 0x0c, 0x0d, 0x0e, 0x0f]
      [0x00, 0x11, 0x22, 0x33, 0x44, 0x55, 0x66, 0x77,
       0x88, 0x99, 0xaa, 0xbb, 0xcc, 0xdd, 0xee, 0xff] =
      [0x69, 0xc4, 0xe0, 0xd8, 0x6a, 0x7b, 0x04, 0x30,
       0xd8, 0xcd, 0xb7, 0x80, 0x70, 0xb4, 0xc5, 0x5a] := by
  decide

/-!
## `Address::matches` (src/addr/matches.rs)

The method reads `self.0`, the raw 6-byte storage of the address; in the
embedding this is `Address.into_bd_addr`, the total extraction of the
underlying bytes. The gate is purely the byte pattern
`(self.0[5] & 0xc0) != 0x40`.
-/

/-- Error for `Address::matches` (`struct InvalidAddressType`). -/
structure InvalidAddressType where
deriving DecidableEq, Repr

deriving instance DecidableEq for Except

/-- `Address::matches` (src/addr/matches.rs lines 13-29): RPA / IRK test.
`k` is the byte-reversed IRK, `r` is the byte-reversed
`self.0[3..] ++ [0; 13]`; the last 3 bytes of the AES ciphertext are
reversed back and compared with `self.0[..3]`. -/
def Address.matches (a : Address) (irk : List Nat) : Except InvalidAddressType Bool :=
  let b := a.into_bd_addr.bytes
  if b.getD 5 0 &&& 0xc0 ≠ 0x40 then
    .error ⟨⟩
  else
    let k := irk.reverse
    let r := (b.drop 3 ++ List.replicate 13 0).reverse
    let hash := ((aes128Encrypt k r).drop 13).reverse
    .ok (decide (hash = b.take 3))

/-!
## Textual codec (src/addr.rs: `Display` and `FromStr`)

Rust strings are embedded as `List Char`.
-/

/-- One lowercase hexadecimal digit, as produced by Rust's `{:02x}`. -/
def toHexDigit (d : Nat) : Char :=
  if d < 10 then Char.ofNat (48 + d) else Char.ofNat (87 + d)

/-- A byte as two lowercase hex digits (`{:02x}` for a value below 256). -/
def toHex2 (b : Nat) : List Char :=
  [toHexDigit (b / 16), toHexDigit (b % 16)]

/-- `impl fmt::Display for BdAddr` (src/addr.rs lines 51-59): bytes 5,4,3,2,1,0
as `{:02x}` fields joined by colons. -/
def BdAddr.display (a : BdAddr) : List Char :=
  toHex2 (a.bytes.getD 5 0) ++ ':' :: toHex2 (a.bytes.getD 4 0) ++
  ':' :: toHex2 (a.bytes.getD 3 0) ++ ':' :: toHex2 (a.bytes.getD 2 0) ++
  ':' :: toHex2 (a.bytes.getD 1 0) ++ ':' :: toHex2 (a.bytes.getD 0 0)

/-- Value of a hexadecimal digit character, as accepted by
`char::to_digit(16)`: `0-9`, `a-f` and `A-F`. -/
def hexDigitVal (c : Char) : Option Nat :=
  if '0' ≤ c ∧ c ≤ '9' then some (c.toNat - 48)
  else if 'a' ≤ c ∧ c ≤ 'f' then some (c.toNat - 87)
  else if 'A' ≤ c ∧ c ≤ 'F' then some (c.toNat - 55)
  else none

/-- One step of `u8::from_str_radix`'s accumulation loop: multiply by the
radix and add the next digit, failing on a non-digit or on u8 overflow
(`checked_mul` / `checked_add`). -/
def pushDigit (acc : Option Nat) (c : Char) : Option Nat :=
  match acc, hexDigitVal c with
  | some a, some d =>
    if a * 16 > 255 then none
    else if a * 16 + d > 255 then none
    else some (a * 16 + d)
  | _, _ => none

/-- The digit-accumulation loop of `u8::from_str_radix` over the digit
characters (after sign handling); empty input is an error. -/
def parseDigits (ds : List Char) : Option Nat :=
  if ds.isEmpty then none else ds.foldl pushDigit (some 0)

/-- The sign handling of `u8::from_str_radix` for an unsigned type: one
leading `+` is stripped (anything else, including `-`, is left for the
digit loop to reject). -/
def stripPlus (s : List Char) : List Char :=
  match s with
  | [] => []
  | c :: r => if c = '+' then r else c :: r

/-- `u8::from_str_radix(v, 16)`: an optional leading `+` (a lone sign is an
error since no digits remain, `-` is not a digit for an unsigned type),
then hex digits accumulated with overflow checking. -/
def fromStrRadix16U8 (s : List Char) : Option Nat :=
  parseDigits (stripPlus s)

/-- Split a string at its first `:` — the elementary step of Rust's
`str::splitn(_, ':')` iterator. -/
def breakColon : List Char → List Char × List Char
  | [] => ([], [])
  | c :: cs =>
    if c = ':' then ([], c :: cs)
    else
      let r := breakColon cs
      (c :: r.1, r.2)

/-- Rust's `str::splitn(n, ':')`: at most `n` parts; the last part is the
unsplit remainder. -/
def splitnColon : Nat → List Char → List (List Char)
  | 0, _ => []
  | 1, s => [s]
  | n + 2, s =>
    match breakColon s with
    | (pre, []) => [pre]
    | (pre, _ :: post) => pre :: splitnColon (n + 1) post

/-- `collect::<Result<Vec<_>, _>>()`: parse every part, failing if any part
fails. -/
def collectParts : List (List Char) → Option (List Nat)
  | [] => some []
  | p :: ps =>
    match fromStrRadix16U8 p, collectParts ps with
    | some v, some vs => some (v :: vs)
    | _, _ => none

/-- `impl FromStr for BdAddr` (src/addr.rs lines 70-78): split on `:` into at
most 6 parts, parse each as a u8 hex value, reverse, and require exactly
6 bytes (`try_into` to `[u8; 6]`). -/
def BdAddr.from_str (s : List Char) : Option BdAddr :=
  match collectParts (splitnColon 6 s) with
  | none => none
  | some parts =>
    let rev := parts.reverse
    if rev.length = 6 then some ⟨rev⟩ else none

/-!
## Spec-side definitions

These follow the wording of the specification, for comparison with the
definitions above that embed the source.
-/

/-- Spec-side: the four LE random sub-types. -/
inductive RSubType where
  | nonResolvable
  | resolvable
  | staticDevice
  | unknown
deriving DecidableEq, Repr

/-- The sub-type variant of a classified random address. -/
def RandomDeviceAddress.subTypeOf : RandomDeviceAddress → RSubType
  | .NonResolvable _ => .nonResolvable
  | .Resolvable _ => .resolvable
  | .Static _ => .staticDevice
  | .Unknown _ => .unknown

/-- The raw bytes carried by a classified random address. -/
def RandomDeviceAddress.inner : RandomDeviceAddress → BdAddr
  | .NonResolvable ⟨a⟩ => a
  | .Resolvable ⟨a⟩ => a
  | .Static ⟨a⟩ => a
  | .Unknown a => a

/-- Spec-side: the tag table `00→NonResolvable, 01→Resolvable, 11→Static,
10→Unknown`. -/
def specTagTable (t : Nat) : RSubType :=
  if t = 0 then .nonResolvable
  else if t = 1 then .resolvable
  else if t = 3 then .staticDevice
  else .unknown

/-- Spec-side: the computed RPA hash. From the spec of the resolver:
`prand = b[3..6]`; the 16-byte block is `prand` right-padded with 13 zero
bytes, byte-reversed; it is AES-128 encrypted under the byte-reversed IRK;
the last 3 bytes of the ciphertext are reversed back to storage order. -/
def specComputedHash (b irk : List Nat) : List Nat :=
  let prand := (b.drop 3).take 3
  let block := (prand ++ List.replicate 13 0).reverse
  let key := irk.reverse
  ((aes128Encrypt key block).drop 13).reverse

/-- Spec-side: one uppercase hexadecimal digit. -/
def toHexDigitUpper (d : Nat) : Char :=
  if d < 10 then Char.ofNat (48 + d) else Char.ofNat (55 + d)

/-- Spec-side: a byte as two uppercase hex digits. -/
def toHex2Upper (b : Nat) : List Char :=
  [toHexDigitUpper (b / 16), toHexDigitUpper (b % 16)]

/-- Spec-side: the uppercase colon-hex rendering of an address (same layout
as `BdAddr.display`, uppercase digits). -/
def BdAddr.displayUpper (a : BdAddr) : List Char :=
  toHex2Upper (a.bytes.getD 5 0) ++ ':' :: toHex2Upper (a.bytes.getD 4 0) ++
  ':' :: toHex2Upper (a.bytes.getD 3 0) ++ ':' :: toHex2Upper (a.bytes.getD 2 0) ++
  ':' :: toHex2Upper (a.bytes.getD 1 0) ++ ':' :: toHex2Upper (a.bytes.getD 0 0)

/-- Spec-side: a lowercase hex digit character. -/
def isLowerHexDigit (c : Char) : Prop :=
  ('0' ≤ c ∧ c ≤ '9') ∨ ('a' ≤ c ∧ c ≤ 'f')

instance (c : Char) : Decidable (isLowerHexDigit c) := by
  unfold isLowerHexDigit; infer_instance

/-- Spec-side: a group of exactly two lowercase hex digits. -/
def isHex2Group (g : List Char) : Prop :=
  g.length = 2 ∧ ∀ c ∈ g, isLowerHexDigit c

/-- Join parts with `:` separators (inverse image of splitting). -/
def joinColon : List (List Char) → List Char
  | [] => []
  | [p] => p
  | p :: ps => p ++ ':' :: joinColon ps

/-- Spec-side: the parse/display grammar — exactly 6 colon-separated groups
of two lowercase hex digits. -/
def specGrammar (s : List Char) : Prop :=
  ∃ g1 g2 g3 g4 g5 g6 : List Char,
    s = joinColon [g1, g2, g3, g4, g5, g6] ∧
    isHex2Group g1 ∧ isHex2Group g2 ∧ isHex2Group g3 ∧
    isHex2Group g4 ∧ isHex2Group g5 ∧ isHex2Group g6

/-- Spec-side: positional value of a hex digit string. -/
def hexVal (ds : List Char) : Nat :=
  ds.foldl (fun a c => a * 16 + (hexDigitVal c).getD 0) 0

/-- Spec-side: a valid u8 hexadecimal numeral — after an optional leading
`+`, one or more hex digits whose value fits in 8 bits. -/
def validNumeral (p : List Char) : Prop :=
  stripPlus p ≠ [] ∧ (∀ c ∈ stripPlus p, (hexDigitVal c).isSome) ∧
    hexVal (stripPlus p) ≤ 255

instance (p : List Char) : Decidable (validNumeral p) := by
  unfold validNumeral; infer_instance

/-!
## Helper lemmas: the 2-bit tag and classification
-/

@[simp] theorem BdAddr.bytes_mk (bs : List Nat) : (⟨bs⟩ : BdAddr).bytes = bs := rfl

theorem tagOfBytes_lt_four (v : List Nat) : tagOfBytes v < 4 := by
  unfold tagOfBytes
  have h1 : v.getD 5 0 &&& 0xC0 ≤ 0xC0 := Nat.and_le_right
  have h2 : (2 : Nat) ^ 6 = 64 := by norm_num
  rw [Nat.shiftRight_eq_div_pow, h2]
  omega

theorem new_mk_tag_eq (bs : List Nat) :
    RandomDeviceAddress.new ⟨bs⟩ =
      match tagOfBytes bs with
      | 0 => .NonResolvable ⟨⟨bs⟩⟩
      | 1 => .Resolvable ⟨⟨bs⟩⟩
      | 3 => .Static ⟨⟨bs⟩⟩
      | _ => .Unknown ⟨bs⟩ := rfl

theorem new_inner (bs : List Nat) : (RandomDeviceAddress.new ⟨bs⟩).inner = ⟨bs⟩ := by
  have h4 := tagOfBytes_lt_four bs
  rw [new_mk_tag_eq]
  generalize tagOfBytes bs = t at h4 ⊢
  interval_cases t <;> rfl

theorem new_subTypeOf (bs : List Nat) :
    (RandomDeviceAddress.new ⟨bs⟩).subTypeOf = specTagTable (tagOfBytes bs) := by
  have h4 := tagOfBytes_lt_four bs
  rw [new_mk_tag_eq]
  generalize tagOfBytes bs = t at h4 ⊢
  interval_cases t <;> rfl

theorem into_bd_addr_le_random (bs : List Nat) :
    (Address.le_random_from bs).into_bd_addr = ⟨bs⟩ := by
  show (Address.LeRandom (RandomDeviceAddress.new ⟨bs⟩)).into_bd_addr = ⟨bs⟩
  have h4 := tagOfBytes_lt_four bs
  rw [new_mk_tag_eq]
  generalize tagOfBytes bs = t at h4 ⊢
  interval_cases t <;> rfl

/-- C6: for every 6-byte array `b`, `RandomDeviceAddress::new` on `BdAddr(b)`
returns exactly one of the four sub-type variants, determined solely by
`(b[5] & 0xC0) >> 6` according to the table `00→NonResolvable,
01→Resolvable, 11→Static, 10→Unknown`, with the wrapped value carrying the
raw bytes `b` unmodified in every case (totality: `new` is a Lean function,
so no input fails). -/
theorem c6_classification_total_table (bs : List Nat) (hlen : bs.length = 6) :
    (RandomDeviceAddress.new ⟨bs⟩).subTypeOf = specTagTable ((bs.getD 5 0 &&& 0xC0) >>> 6) ∧
    (RandomDeviceAddress.new ⟨bs⟩).inner = ⟨bs⟩ :=
  ⟨new_subTypeOf bs, new_inner bs⟩

/-- Witness for C6 at the spec's own example `0x75` (bits `01` → Resolvable). -/
theorem c6_witness :
    (RandomDeviceAddress.new ⟨[0x00, 0x11, 0x22, 0x33, 0x44, 0x75]⟩).subTypeOf =
        specTagTable (([0x00, 0x11, 0x22, 0x33, 0x44, 0x75].getD 5 0 &&& 0xC0) >>> 6) ∧
    (RandomDeviceAddress.new ⟨[0x00, 0x11, 0x22, 0x33, 0x44, 0x75]⟩).inner =
        ⟨[0x00, 0x11, 0x22, 0x33, 0x44, 0x75]⟩ :=
  c6_classification_total_table [0x00, 0x11, 0x22, 0x33, 0x44, 0x75] (by decide)

/-- C7: strict construction for each sub-type succeeds if and only if
`(v[5] & 0xC0) >> 6` equals that type's tag constant (`0b00`, `0b01`,
`0b11`); on failure the error carries the expected and the actual tag. -/
theorem c7_strict_construction (bs : List Nat) (hlen : bs.length = 6) :
    (tagOfBytes bs = NonResolvablePrivateAddress.TAG →
        NonResolvablePrivateAddress.tryFrom bs = .ok ⟨⟨bs⟩⟩) ∧
    (tagOfBytes bs ≠ NonResolvablePrivateAddress.TAG →
        NonResolvablePrivateAddress.tryFrom bs =
          .error ⟨NonResolvablePrivateAddress.TAG, tagOfBytes bs⟩) ∧
    (tagOfBytes bs = ResolvablePrivateAddress.TAG →
        ResolvablePrivateAddress.tryFrom bs = .ok ⟨⟨bs⟩⟩) ∧
    (tagOfBytes bs ≠ ResolvablePrivateAddress.TAG →
        ResolvablePrivateAddress.tryFrom bs =
          .error ⟨ResolvablePrivateAddress.TAG, tagOfBytes bs⟩) ∧
    (tagOfBytes bs = StaticDeviceAddress.TAG →
        StaticDeviceAddress.tryFrom bs = .ok ⟨⟨bs⟩⟩) ∧
    (tagOfBytes bs ≠ StaticDeviceAddress.TAG →
        StaticDeviceAddress.tryFrom bs =
          .error ⟨StaticDeviceAddress.TAG, tagOfBytes bs⟩) := by
  refine ⟨fun h => ?_, fun h => ?_, fun h => ?_, fun h => ?_, fun h => ?_, fun h => ?_⟩ <;>
    simp [NonResolvablePrivateAddress.tryFrom, ResolvablePrivateAddress.tryFrom,
      StaticDeviceAddress.tryFrom, h]

/-- Witness for C7 at bytes with top bits `01` (tag 1): resolvable strict
construction succeeds, the other two fail with expected/actual tags. -/
theorem c7_witness :
    (tagOfBytes [0x00, 0x11, 0x22, 0x33, 0x44, 0x55] = ResolvablePrivateAddress.TAG →
        ResolvablePrivateAddress.tryFrom [0x00, 0x11, 0x22, 0x33, 0x44, 0x55] =
          .ok ⟨⟨[0x00, 0x11, 0x22, 0x33, 0x44, 0x55]⟩⟩) ∧
    (tagOfBytes [0x00, 0x11, 0x22, 0x33, 0x44, 0x55] ≠ NonResolvablePrivateAddress.TAG →
        NonResolvablePrivateAddress.tryFrom [0x00, 0x11, 0x22, 0x33, 0x44, 0x55] =
          .error ⟨NonResolvablePrivateAddress.TAG,
            tagOfBytes [0x00, 0x11, 0x22, 0x33, 0x44, 0x55]⟩) := by
  have h := c7_strict_construction [0x00, 0x11, 0x22, 0x33, 0x44, 0x55] (by decide)
  exact ⟨h.2.2.1, h.2.1⟩

/-- C8: if strict `try_from` for a sub-type succeeds on `b`, lenient
classification yields the same variant wrapping identical content; if it
fails, lenient classification yields a different variant. -/
theorem c8_strict_lenient_agreement (bs : List Nat) (hlen : bs.length = 6) :
    (∀ x, NonResolvablePrivateAddress.tryFrom bs = .ok x →
        RandomDeviceAddress.new ⟨bs⟩ = .NonResolvable x) ∧
    (∀ e, NonResolvablePrivateAddress.tryFrom bs = .error e →
        (RandomDeviceAddress.new ⟨bs⟩).subTypeOf ≠ .nonResolvable) ∧
    (∀ x, ResolvablePrivateAddress.tryFrom bs = .ok x →
        RandomDeviceAddress.new ⟨bs⟩ = .Resolvable x) ∧
    (∀ e, ResolvablePrivateAddress.tryFrom bs = .error e →
        (RandomDeviceAddress.new ⟨bs⟩).subTypeOf ≠ .resolvable) ∧
    (∀ x, StaticDeviceAddress.tryFrom bs = .ok x →
        RandomDeviceAddress.new ⟨bs⟩ = .Static x) ∧
    (∀ e, StaticDeviceAddress.tryFrom bs = .error e →
        (RandomDeviceAddress.new ⟨bs⟩).subTypeOf ≠ .staticDevice) := by
  have h4 := tagOfBytes_lt_four bs
  rw [new_mk_tag_eq]
  unfold NonResolvablePrivateAddress.tryFrom ResolvablePrivateAddress.tryFrom
    StaticDeviceAddress.tryFrom NonResolvablePrivateAddress.TAG
    ResolvablePrivateAddress.TAG StaticDeviceAddress.TAG
  generalize tagOfBytes bs = t at h4 ⊢
  interval_cases t <;>
    simp [RandomDeviceAddress.subTypeOf]

/-- Witness for C8 at bytes with top bits `01`: strict resolvable success
agrees with lenient classification; strict static failure lands in a
different variant. -/
theorem c8_witness :
    (∀ x, ResolvablePrivateAddress.tryFrom [0x00, 0x11, 0x22, 0x33, 0x44, 0x55] = .ok x →
        RandomDeviceAddress.new ⟨[0x00, 0x11, 0x22, 0x33, 0x44, 0x55]⟩ = .Resolvable x) ∧
    (∀ e, StaticDeviceAddress.tryFrom [0x00, 0x11, 0x22, 0x33, 0x44, 0x55] = .error e →
        (RandomDeviceAddress.new ⟨[0x00, 0x11, 0x22, 0x33, 0x44, 0x55]⟩).subTypeOf ≠
          .staticDevice) := by
  have h := c8_strict_lenient_agreement [0x00, 0x11, 0x22, 0x33, 0x44, 0x55] (by decide)
  exact ⟨h.2.2.1, h.2.2.2.2.2⟩

/-!
## Claims about `Address::matches`
-/

/-- C1 (amended): the gate of `Address::matches` is purely the byte pattern
`self.0[5] & 0xC0 == 0x40` of the underlying raw bytes, regardless of which
`Address` variant carries them: when the pattern differs the call fails with
the invalid-address-type error (so the cipher is never reached), and when
the pattern holds the call succeeds with a boolean. -/
theorem c1_matches_gate_is_byte_pattern (a : Address) (irk : List Nat) :
    (a.into_bd_addr.bytes.getD 5 0 &&& 0xc0 ≠ 0x40 → a.matches irk = .error ⟨⟩) ∧
    (a.into_bd_addr.bytes.getD 5 0 &&& 0xc0 = 0x40 → (a.matches irk).isOk = true) := by
  constructor
  · intro h
    simp only [Address.matches]
    rw [if_pos h]
  · intro h
    simp only [Address.matches]
    rw [if_neg (fun hne => hne h)]
    rfl

/-- Counterexample to C1 as stated: a BR/EDR address whose raw bytes happen
to have top bits `01` in byte 5 is accepted by `matches` (here even
returning `Ok(true)`), instead of the invalid-address-type error the claim
requires for every BR/EDR address. -/
theorem c1_counterexample_bredr_matches_ok :
    (Address.bredr_from [130, 189, 188, 140, 3, 83]).matches
      [25, 120, 162, 175, 221, 117, 123, 237, 252, 157, 198, 158, 149, 215, 51, 179] =
      .ok true := by
  decide

/-- Witness for the amended C1: an LE-public address with top bits `00`
errors; a BR/EDR address with top bits `01` succeeds. -/
theorem c1_witness :
    (Address.le_public_from [0, 0, 0, 0, 0, 0]).matches (List.replicate 16 0) = .error ⟨⟩ ∧
    ((Address.bredr_from [0, 0, 0, 0, 0, 0x40]).matches (List.replicate 16 0)).isOk = true :=
  ⟨(c1_matches_gate_is_byte_pattern (Address.le_public_from [0, 0, 0, 0, 0, 0])
      (List.replicate 16 0)).1 (by decide),
   (c1_matches_gate_is_byte_pattern (Address.bredr_from [0, 0, 0, 0, 0, 0x40])
      (List.replicate 16 0)).2 (by decide)⟩

/-- C2: on a resolvable private address (top bits of byte 5 equal `01`),
`matches` returns `Ok` of exactly the spec's computation: `prand = b[3..6]`
right-padded with 13 zero bytes and byte-reversed, AES-128-encrypted under
the byte-reversed IRK, the last 3 ciphertext bytes reversed back, compared
with `hash = b[0..3]`. -/
theorem c2_rpa_hash_algorithm (bs irk : List Nat) (hlen : bs.length = 6)
    (hirk : irk.length = 16) (htag : bs.getD 5 0 &&& 0xC0 = 0x40) :
    (Address.le_random_from bs).matches irk =
      .ok (decide (specComputedHash bs irk = bs.take 3)) := by
  have hb := into_bd_addr_le_random bs
  have hdrop : (bs.drop 3).take 3 = bs.drop 3 :=
    List.take_of_length_le (by simp [hlen])
  simp only [Address.matches, hb, BdAddr.bytes_mk, specComputedHash, hdrop]
  rw [if_neg (fun hne => hne htag)]

/-- Witness for C2 at the crate's own test vector. -/
theorem c2_witness :
    (Address.le_random_from [130, 189, 188, 140, 3, 83]).matches
      [25, 120, 162, 175, 221, 117, 123, 237, 252, 157, 198, 158, 149, 215, 51, 179] =
      .ok (decide (specComputedHash [130, 189, 188, 140, 3, 83]
        [25, 120, 162, 175, 221, 117, 123, 237, 252, 157, 198, 158, 149, 215, 51, 179] =
        [130, 189, 188, 140, 3, 83].take 3)) :=
  c2_rpa_hash_algorithm [130, 189, 188, 140, 3, 83]
    [25, 120, 162, 175, 221, 117, 123, 237, 252, 157, 198, 158, 149, 215, 51, 179]
    (by decide) (by decide) (by decide)

/-- C3: the crate's RPA test vector — address `[130,189,188,140,3,83]`
matches the given IRK (`Ok(true)`), and fails to match the IRK whose first
byte is 26 instead of 25 (`Ok(false)`, not an error). -/
theorem c3_rpa_test_vector :
    (Address.le_random_from [130, 189, 188, 140, 3, 83]).matches
      [25, 120, 162, 175, 221, 117, 123, 237, 252, 157, 198, 158, 149, 215, 51, 179] =
      .ok true ∧
    (Address.le_random_from [130, 189, 188, 140, 3, 83]).matches
      [26, 120, 162, 175, 221, 117, 123, 237, 252, 157, 198, 158, 149, 215, 51, 179] =
      .ok false := by
  constructor <;> decide

/-!
## Helper lemmas: hex digits and numerals
-/

theorem hexDigitVal_toHexDigit (d : Nat) (h : d < 16) :
    hexDigitVal (toHexDigit d) = some d := by
  interval_cases d <;> decide

theorem toHexDigit_ne_colon (d : Nat) (h : d < 16) : toHexDigit d ≠ ':' := by
  interval_cases d <;> decide

theorem toHexDigit_ne_plus (d : Nat) (h : d < 16) : toHexDigit d ≠ '+' := by
  interval_cases d <;> decide

theorem isLowerHexDigit_toHexDigit (d : Nat) (h : d < 16) :
    isLowerHexDigit (toHexDigit d) := by
  interval_cases d <;> decide

theorem hexDigitVal_ne_colon (c : Char) (h : (hexDigitVal c).isSome) : c ≠ ':' := by
  intro hc
  rw [hc] at h
  exact absurd h (by decide)

theorem fromStrRadix_toHex2 (b : Nat) (h : b < 256) :
    fromStrRadix16U8 (toHex2 b) = some b := by
  interval_cases b <;> decide

theorem fromStrRadix_toHex2Upper (b : Nat) (h : b < 256) :
    fromStrRadix16U8 (toHex2Upper b) = some b := by
  interval_cases b <;> decide

theorem toHex2_ne_colon (b : Nat) (h : b < 256) : ∀ c ∈ toHex2 b, c ≠ ':' := by
  intro c hc
  rcases (by simpa [toHex2] using hc : c = toHexDigit (b / 16) ∨ c = toHexDigit (b % 16)) with
    h1 | h1 <;> subst h1
  · exact toHexDigit_ne_colon (b / 16) (by omega)
  · exact toHexDigit_ne_colon (b % 16) (by omega)

theorem toHex2Upper_ne_colon (b : Nat) (h : b < 256) : ∀ c ∈ toHex2Upper b, c ≠ ':' := by
  intro c hc
  rcases (by simpa [toHex2Upper] using hc :
      c = toHexDigitUpper (b / 16) ∨ c = toHexDigitUpper (b % 16)) with h1 | h1 <;> subst h1
  · have : b / 16 < 16 := by omega
    interval_cases hd : (b / 16) <;> decide
  · have : b % 16 < 16 := by omega
    interval_cases hd : (b % 16) <;> decide

theorem isHex2Group_toHex2 (b : Nat) (h : b < 256) : isHex2Group (toHex2 b) := by
  refine ⟨rfl, fun c hc => ?_⟩
  rcases (by simpa [toHex2] using hc : c = toHexDigit (b / 16) ∨ c = toHexDigit (b % 16)) with
    h1 | h1 <;> subst h1
  · exact isLowerHexDigit_toHexDigit (b / 16) (by omega)
  · exact isLowerHexDigit_toHexDigit (b % 16) (by omega)

/-- Positional accumulation of hex digit values starting from `acc`. -/
def hexValFrom (acc : Nat) (ds : List Char) : Nat :=
  ds.foldl (fun a c => a * 16 + (hexDigitVal c).getD 0) acc

theorem hexVal_eq_hexValFrom (ds : List Char) : hexVal ds = hexValFrom 0 ds := rfl

theorem hexValFrom_ge (acc : Nat) (ds : List Char) : acc ≤ hexValFrom acc ds := by
  induction ds generalizing acc with
  | nil => exact le_refl acc
  | cons c t ih =>
    have h1 : acc ≤ acc * 16 + (hexDigitVal c).getD 0 := by omega
    exact h1.trans (ih (acc * 16 + (hexDigitVal c).getD 0))

theorem pushDigit_none (c : Char) : pushDigit none c = none := by
  unfold pushDigit
  rcases hexDigitVal c with _ | d <;> rfl

theorem foldl_pushDigit_none (ds : List Char) : ds.foldl pushDigit none = none := by
  induction ds with
  | nil => rfl
  | cons c t ih => rw [List.foldl_cons, pushDigit_none, ih]

theorem foldl_pushDigit_eq_some_iff (ds : List Char) : ∀ acc v : Nat, acc ≤ 255 →
    (ds.foldl pushDigit (some acc) = some v ↔
      (∀ c ∈ ds, (hexDigitVal c).isSome) ∧ hexValFrom acc ds ≤ 255 ∧ v = hexValFrom acc ds) := by
  induction ds with
  | nil =>
    intro acc v hacc
    have h1 : hexValFrom acc [] = acc := rfl
    rw [List.foldl_nil, h1]
    constructor
    · intro h
      exact ⟨fun c hc => absurd hc (List.not_mem_nil c), hacc, (Option.some.inj h).symm⟩
    · rintro ⟨-, -, h3⟩
      rw [h3]
  | cons c t ih =>
    intro acc v hacc
    rcases hd : hexDigitVal c with _ | d
    · have hp : pushDigit (some acc) c = none := by
        unfold pushDigit
        rw [hd]
      rw [List.foldl_cons, hp, foldl_pushDigit_none]
      constructor
      · intro h
        cases h
      · rintro ⟨hv, -, -⟩
        have := hv c (List.mem_cons_self c t)
        rw [hd] at this
        cases this
    · have hdg : (hexDigitVal c).getD 0 = d := by rw [hd]; rfl
      have hvf : hexValFrom acc (c :: t) = hexValFrom (acc * 16 + d) t := by
        simp only [hexValFrom, List.foldl_cons, hdg]
      have heq : pushDigit (some acc) c =
          if acc * 16 > 255 then none
          else if acc * 16 + d > 255 then none
          else some (acc * 16 + d) := by
        unfold pushDigit
        rw [hd]
      by_cases hof : acc * 16 + d ≤ 255
      · have hp : pushDigit (some acc) c = some (acc * 16 + d) := by
          rw [heq, if_neg (by omega), if_neg (by omega)]
        rw [List.foldl_cons, hp, ih (acc * 16 + d) v hof, hvf]
        constructor
        · rintro ⟨h1, h2, h3⟩
          refine ⟨fun x hx => ?_, h2, h3⟩
          rcases List.mem_cons.mp hx with hxc | hxt
          · subst hxc; rw [hd]; rfl
          · exact h1 x hxt
        · rintro ⟨h1, h2, h3⟩
          exact ⟨fun x hx => h1 x (List.mem_cons_of_mem c hx), h2, h3⟩
      · have hp : pushDigit (some acc) c = none := by
          rw [heq]
          by_cases h16 : acc * 16 > 255
          · rw [if_pos h16]
          · rw [if_neg h16, if_pos (by omega)]
        rw [List.foldl_cons, hp, foldl_pushDigit_none]
        constructor
        · intro h
          cases h
        · rintro ⟨-, h2, -⟩
          rw [hvf] at h2
          have := hexValFrom_ge (acc * 16 + d) t
          omega

theorem parseDigits_eq_some_iff (ds : List Char) (v : Nat) :
    parseDigits ds = some v ↔
      ds ≠ [] ∧ (∀ c ∈ ds, (hexDigitVal c).isSome) ∧ hexVal ds ≤ 255 ∧ v = hexVal ds := by
  unfold parseDigits
  rcases ds with _ | ⟨c, t⟩
  · simp
  · rw [if_neg (by simp)]
    rw [foldl_pushDigit_eq_some_iff (c :: t) 0 v (by omega)]
    rw [hexVal_eq_hexValFrom]
    simp

theorem fromStrRadix_eq_some_iff (p : List Char) (v : Nat) :
    fromStrRadix16U8 p = some v ↔ validNumeral p ∧ v = hexVal (stripPlus p) := by
  unfold fromStrRadix16U8 validNumeral
  rw [parseDigits_eq_some_iff]
  tauto

/-!
## Helper lemmas: splitting on colons
-/

theorem breakColon_append (p rest : List Char) (h : ∀ c ∈ p, c ≠ ':') :
    breakColon (p ++ ':' :: rest) = (p, ':' :: rest) := by
  induction p with
  | nil => simp [breakColon]
  | cons c t ih =>
    have hc : c ≠ ':' := h c (List.mem_cons_self c t)
    have ht : ∀ x ∈ t, x ≠ ':' := fun x hx => h x (List.mem_cons_of_mem c hx)
    simp [breakColon, hc, ih ht]

theorem breakColon_struct (s : List Char) :
    s = (breakColon s).1 ++ (breakColon s).2 ∧
    (∀ c ∈ (breakColon s).1, c ≠ ':') ∧
    ((breakColon s).2 = [] ∨ ∃ t, (breakColon s).2 = ':' :: t) := by
  induction s with
  | nil => exact ⟨rfl, fun c hc => absurd hc (List.not_mem_nil c), Or.inl rfl⟩
  | cons c t ih =>
    obtain ⟨ih1, ih2, ih3⟩ := ih
    by_cases hc : c = ':'
    · subst hc
      refine ⟨by simp [breakColon], ?_, Or.inr ⟨t, by simp [breakColon]⟩⟩
      simp [breakColon]
    · refine ⟨?_, ?_, ?_⟩
      · simp only [breakColon, if_neg hc]
        exact congrArg (c :: ·) ih1
      · intro x hx
        simp only [breakColon, if_neg hc] at hx
        rcases List.mem_cons.mp hx with h1 | h1
        · subst h1; exact hc
        · exact ih2 x h1
      · simp only [breakColon, if_neg hc]
        exact ih3

theorem splitnColon_cons (n : Nat) (p rest : List Char) (h : ∀ c ∈ p, c ≠ ':') :
    splitnColon (n + 2) (p ++ ':' :: rest) = p :: splitnColon (n + 1) rest := by
  have hunfold : splitnColon (n + 2) (p ++ ':' :: rest) =
      match breakColon (p ++ ':' :: rest) with
      | (pre, []) => [pre]
      | (pre, _ :: post) => pre :: splitnColon (n + 1) post := rfl
  rw [hunfold, breakColon_append p rest h]

theorem splitnColon_struct (n : Nat) : ∀ s : List Char,
    joinColon (splitnColon (n + 1) s) = s ∧
    splitnColon (n + 1) s ≠ [] ∧
    (splitnColon (n + 1) s).length ≤ n + 1 ∧
    ∀ p ∈ (splitnColon (n + 1) s).dropLast, ∀ c ∈ p, c ≠ ':' := by
  induction n with
  | zero =>
    intro s
    exact ⟨rfl, by simp [splitnColon], by simp [splitnColon],
      by simp [splitnColon, List.dropLast]⟩
  | succ n ih =>
    intro s
    obtain ⟨pre, snd, hb⟩ : ∃ pre snd, breakColon s = (pre, snd) := ⟨_, _, rfl⟩
    obtain ⟨hs1, hs2, hs3⟩ := breakColon_struct s
    rw [hb] at hs1 hs2 hs3
    simp only at hs1 hs2 hs3
    have hunfold : splitnColon (n + 1 + 1) s =
        match breakColon s with
        | (pre, []) => [pre]
        | (pre, _ :: post) => pre :: splitnColon (n + 1) post := rfl
    rw [hunfold, hb]
    rcases snd with _ | ⟨c, post⟩
    · rw [List.append_nil] at hs1
      subst hs1
      exact ⟨rfl, by simp, by simp, by simp [List.dropLast]⟩
    · have hc : c = ':' := by
        rcases hs3 with h3 | ⟨t, h3⟩
        · cases h3
        · exact (List.cons_eq_cons.mp h3).1
      subst hc
      obtain ⟨ih1, ih2, ih3, ih4⟩ := ih post
      obtain ⟨q, qs, hq⟩ : ∃ q qs, splitnColon (n + 1) post = q :: qs := by
        rcases hqq : splitnColon (n + 1) post with _ | ⟨q, qs⟩
        · exact absurd hqq ih2
        · exact ⟨q, qs, rfl⟩
      show joinColon (pre :: splitnColon (n + 1) post) = s ∧
        pre :: splitnColon (n + 1) post ≠ [] ∧
        (pre :: splitnColon (n + 1) post).length ≤ n + 1 + 1 ∧
        ∀ p ∈ (pre :: splitnColon (n + 1) post).dropLast, ∀ c ∈ p, c ≠ ':'
      rw [hq] at ih1 ih3 ih4 ⊢
      refine ⟨?_, by simp, ?_, ?_⟩
      · have hj : joinColon (pre :: q :: qs) = pre ++ ':' :: joinColon (q :: qs) := rfl
        rw [hj, ih1, ← hs1]
      · simp only [List.length_cons] at ih3 ⊢
        omega
      · have hdl : (pre :: q :: qs).dropLast = pre :: (q :: qs).dropLast := rfl
        rw [hdl]
        intro p hp
        rcases List.mem_cons.mp hp with h1 | h1
        · subst h1; exact hs2
        · exact ih4 p h1

theorem collectParts_eq_some_iff (ps : List (List Char)) : ∀ vs : List Nat,
    collectParts ps = some vs ↔
      (∀ p ∈ ps, validNumeral p) ∧ vs = ps.map (fun p => hexVal (stripPlus p)) := by
  induction ps with
  | nil =>
    intro vs
    constructor
    · intro h
      exact ⟨fun p hp => absurd hp (List.not_mem_nil p),
        ((Option.some.inj h).symm : vs = [])⟩
    · rintro ⟨-, hvs⟩
      rw [hvs]
      rfl
  | cons p t ih =>
    intro vs
    rcases hp : fromStrRadix16U8 p with _ | v
    · have hred : collectParts (p :: t) = none := by
        unfold collectParts
        rw [hp]
      rw [hred]
      constructor
      · intro h
        cases h
      · rintro ⟨hv, -⟩
        have hvp := hv p (List.mem_cons_self p t)
        have h2 : fromStrRadix16U8 p = some (hexVal (stripPlus p)) :=
          (fromStrRadix_eq_some_iff p _).mpr ⟨hvp, rfl⟩
        rw [hp] at h2
        cases h2
    · rcases hc : collectParts t with _ | vs'
      · have hred : collectParts (p :: t) = none := by
          unfold collectParts
          rw [hp, hc]
        rw [hred]
        constructor
        · intro h
          cases h
        · rintro ⟨hv, -⟩
          have h2 : collectParts t = some (t.map fun q => hexVal (stripPlus q)) :=
            (ih _).mpr ⟨fun x hx => hv x (List.mem_cons_of_mem p hx), rfl⟩
          rw [hc] at h2
          cases h2
      · have hred : collectParts (p :: t) = some (v :: vs') := by
          unfold collectParts
          rw [hp, hc]
        rw [hred]
        obtain ⟨hvp, hveq⟩ := (fromStrRadix_eq_some_iff p v).mp hp
        obtain ⟨hvt, hvs'⟩ := (ih vs').mp hc
        constructor
        · intro h
          have hv : vs = v :: vs' := (Option.some.inj h).symm
          refine ⟨fun x hx => ?_, ?_⟩
          · rcases List.mem_cons.mp hx with h1 | h1
            · subst h1; exact hvp
            · exact hvt x h1
          · rw [hv, List.map_cons, ← hveq, ← hvs']
        · rintro ⟨-, hvs⟩
          rw [hvs, List.map_cons, ← hveq, ← hvs']

theorem validNumeral_ne_colon (p : List Char) (h : validNumeral p) : ∀ c ∈ p, c ≠ ':' := by
  obtain ⟨h1, h2, h3⟩ := h
  intro c hc
  rcases p with _ | ⟨c0, t⟩
  · cases hc
  · by_cases hp : c0 = '+'
    · subst hp
      have hs : stripPlus ('+' :: t) = t := by simp [stripPlus]
      rw [hs] at h2
      rcases List.mem_cons.mp hc with h4 | h4
      · subst h4; decide
      · exact hexDigitVal_ne_colon c (h2 c h4)
    · have hs : stripPlus (c0 :: t) = c0 :: t := by simp [stripPlus, hp]
      rw [hs] at h2
      exact hexDigitVal_ne_colon c (h2 c hc)

theorem splitnColon_six (p1 p2 p3 p4 p5 p6 : List Char)
    (h1 : ∀ c ∈ p1, c ≠ ':') (h2 : ∀ c ∈ p2, c ≠ ':') (h3 : ∀ c ∈ p3, c ≠ ':')
    (h4 : ∀ c ∈ p4, c ≠ ':') (h5 : ∀ c ∈ p5, c ≠ ':') :
    splitnColon 6 (p1 ++ ':' :: (p2 ++ ':' :: (p3 ++ ':' :: (p4 ++ ':' :: (p5 ++ ':' :: p6))))) =
      [p1, p2, p3, p4, p5, p6] := by
  have e1 := splitnColon_cons 4 p1 (p2 ++ ':' :: (p3 ++ ':' :: (p4 ++ ':' :: (p5 ++ ':' :: p6)))) h1
  have e2 := splitnColon_cons 3 p2 (p3 ++ ':' :: (p4 ++ ':' :: (p5 ++ ':' :: p6))) h2
  have e3 := splitnColon_cons 2 p3 (p4 ++ ':' :: (p5 ++ ':' :: p6)) h3
  have e4 := splitnColon_cons 1 p4 (p5 ++ ':' :: p6) h4
  have e5 := splitnColon_cons 0 p5 p6 h5
  norm_num at e1 e2 e3 e4 e5
  rw [e1, e2, e3, e4, e5]
  rfl

/-- C4 (amended): `BdAddr::from_str` succeeds exactly on strings of 6
colon-separated fields, each a valid u8 hexadecimal numeral in the sense of
`u8::from_str_radix(_, 16)` — one or more hex digits (any number of digits,
either case), optionally preceded by one `+`, with value at most 255 — and
on success the 6 parsed octets are stored in reversed order relative to
display order. -/
theorem c4_parse_success_characterization (s : List Char) (a : BdAddr) :
    BdAddr.from_str s = some a ↔
      ∃ p1 p2 p3 p4 p5 p6 : List Char,
        s = p1 ++ ':' :: (p2 ++ ':' :: (p3 ++ ':' :: (p4 ++ ':' :: (p5 ++ ':' :: p6)))) ∧
        validNumeral p1 ∧ validNumeral p2 ∧ validNumeral p3 ∧
        validNumeral p4 ∧ validNumeral p5 ∧ validNumeral p6 ∧
        a = ⟨[hexVal (stripPlus p6), hexVal (stripPlus p5), hexVal (stripPlus p4),
              hexVal (stripPlus p3), hexVal (stripPlus p2), hexVal (stripPlus p1)]⟩ := by
  constructor
  · intro h
    unfold BdAddr.from_str at h
    rcases hcp : collectParts (splitnColon 6 s) with _ | parts
    · rw [hcp] at h
      cases h
    · rw [hcp] at h
      have h' : (if (parts.reverse).length = 6 then some (⟨parts.reverse⟩ : BdAddr)
          else none) = some a := h
      by_cases hl : (parts.reverse).length = 6
      · rw [if_pos hl] at h'
        have ha : a = ⟨parts.reverse⟩ := (Option.some.inj h').symm
        obtain ⟨hvalid, hparts⟩ := (collectParts_eq_some_iff _ _).mp hcp
        have hplen : parts.length = 6 := by
          rw [List.length_reverse] at hl
          exact hl
        have hlen : (splitnColon 6 s).length = 6 := by
          rw [hparts, List.length_map] at hplen
          exact hplen
        obtain ⟨hjoin, hne, hle, hfree⟩ := splitnColon_struct 5 s
        obtain ⟨q1, q2, q3, q4, q5, q6, hps⟩ :
            ∃ q1 q2 q3 q4 q5 q6, splitnColon 6 s = [q1, q2, q3, q4, q5, q6] := by
          rcases hq : splitnColon 6 s with
            _ | ⟨q1, _ | ⟨q2, _ | ⟨q3, _ | ⟨q4, _ | ⟨q5, _ | ⟨q6, _ | ⟨q7, rest⟩⟩⟩⟩⟩⟩⟩ <;>
            rw [hq] at hlen <;> simp at hlen
          exact ⟨q1, q2, q3, q4, q5, q6, rfl⟩
        rw [hps] at hjoin hvalid hparts
        refine ⟨q1, q2, q3, q4, q5, q6, ?_, ?_, ?_, ?_, ?_, ?_, ?_, ?_⟩
        · rw [← hjoin]
          rfl
        · exact hvalid q1 (by simp)
        · exact hvalid q2 (by simp)
        · exact hvalid q3 (by simp)
        · exact hvalid q4 (by simp)
        · exact hvalid q5 (by simp)
        · exact hvalid q6 (by simp)
        · rw [ha, hparts]
          rfl
      · rw [if_neg hl] at h'
        cases h'
  · rintro ⟨p1, p2, p3, p4, p5, p6, hs, h1, h2, h3, h4, h5, h6, ha⟩
    subst hs
    subst ha
    unfold BdAddr.from_str
    rw [splitnColon_six p1 p2 p3 p4 p5 p6 (validNumeral_ne_colon p1 h1)
      (validNumeral_ne_colon p2 h2) (validNumeral_ne_colon p3 h3)
      (validNumeral_ne_colon p4 h4) (validNumeral_ne_colon p5 h5)]
    have hc : collectParts [p1, p2, p3, p4, p5, p6] =
        some [hexVal (stripPlus p1), hexVal (stripPlus p2), hexVal (stripPlus p3),
          hexVal (stripPlus p4), hexVal (stripPlus p5), hexVal (stripPlus p6)] := by
      refine (collectParts_eq_some_iff _ _).mpr ⟨?_, rfl⟩
      intro p hp
      rcases (by simpa using hp :
          p = p1 ∨ p = p2 ∨ p = p3 ∨ p = p4 ∨ p = p5 ∨ p = p6) with
        hh | hh | hh | hh | hh | hh <;> subst hh <;> assumption
    rw [hc]
    rfl

/-- Counterexample to C4 as stated: the first field `"0"` is a 1-digit field
(not 2-digit hex), yet `from_str` succeeds — `u8::from_str_radix` accepts
any number of digits. -/
theorem c4_counterexample_one_digit_field :
    BdAddr.from_str (("0:11:22:33:44:55").data) =
      some ⟨[0x55, 0x44, 0x33, 0x22, 0x11, 0x00]⟩ := by
  decide

/-- Witness for the amended C4 at a concrete decomposition. -/
theorem c4_witness :
    BdAddr.from_str (("55:44:33:22:11:00").data) =
      some ⟨[0x00, 0x11, 0x22, 0x33, 0x44, 0x55]⟩ := by
  refine (c4_parse_success_characterization (("55:44:33:22:11:00").data)
      ⟨[0x00, 0x11, 0x22, 0x33, 0x44, 0x55]⟩).mpr
    ⟨("55").data, ("44").data, ("33").data, ("22").data, ("11").data, ("00").data,
      by decide, by decide, by decide, by decide, by decide, by decide, by decide, by decide⟩

/-!
## Helper lemmas: display / parse round trip
-/

theorem from_str_display6 (b0 b1 b2 b3 b4 b5 : Nat)
    (h0 : b0 < 256) (h1 : b1 < 256) (h2 : b2 < 256)
    (h3 : b3 < 256) (h4 : b4 < 256) (h5 : b5 < 256) :
    BdAddr.from_str (BdAddr.display ⟨[b0, b1, b2, b3, b4, b5]⟩) =
      some ⟨[b0, b1, b2, b3, b4, b5]⟩ := by
  have hd : BdAddr.display ⟨[b0, b1, b2, b3, b4, b5]⟩ =
      toHex2 b5 ++ ':' :: (toHex2 b4 ++ ':' :: (toHex2 b3 ++ ':' ::
        (toHex2 b2 ++ ':' :: (toHex2 b1 ++ ':' :: toHex2 b0)))) := rfl
  rw [hd]
  unfold BdAddr.from_str
  rw [splitnColon_six _ _ _ _ _ _ (toHex2_ne_colon b5 h5) (toHex2_ne_colon b4 h4)
    (toHex2_ne_colon b3 h3) (toHex2_ne_colon b2 h2) (toHex2_ne_colon b1 h1)]
  have hc : collectParts [toHex2 b5, toHex2 b4, toHex2 b3, toHex2 b2, toHex2 b1, toHex2 b0] =
      some [b5, b4, b3, b2, b1, b0] := by
    simp [collectParts, fromStrRadix_toHex2 b5 h5, fromStrRadix_toHex2 b4 h4,
      fromStrRadix_toHex2 b3 h3, fromStrRadix_toHex2 b2 h2, fromStrRadix_toHex2 b1 h1,
      fromStrRadix_toHex2 b0 h0]
  rw [hc]
  rfl

theorem from_str_displayUpper6 (b0 b1 b2 b3 b4 b5 : Nat)
    (h0 : b0 < 256) (h1 : b1 < 256) (h2 : b2 < 256)
    (h3 : b3 < 256) (h4 : b4 < 256) (h5 : b5 < 256) :
    BdAddr.from_str (BdAddr.displayUpper ⟨[b0, b1, b2, b3, b4, b5]⟩) =
      some ⟨[b0, b1, b2, b3, b4, b5]⟩ := by
  have hd : BdAddr.displayUpper ⟨[b0, b1, b2, b3, b4, b5]⟩ =
      toHex2Upper b5 ++ ':' :: (toHex2Upper b4 ++ ':' :: (toHex2Upper b3 ++ ':' ::
        (toHex2Upper b2 ++ ':' :: (toHex2Upper b1 ++ ':' :: toHex2Upper b0)))) := rfl
  rw [hd]
  unfold BdAddr.from_str
  rw [splitnColon_six _ _ _ _ _ _ (toHex2Upper_ne_colon b5 h5) (toHex2Upper_ne_colon b4 h4)
    (toHex2Upper_ne_colon b3 h3) (toHex2Upper_ne_colon b2 h2) (toHex2Upper_ne_colon b1 h1)]
  have hc : collectParts [toHex2Upper b5, toHex2Upper b4, toHex2Upper b3, toHex2Upper b2,
      toHex2Upper b1, toHex2Upper b0] = some [b5, b4, b3, b2, b1, b0] := by
    simp [collectParts, fromStrRadix_toHex2Upper b5 h5, fromStrRadix_toHex2Upper b4 h4,
      fromStrRadix_toHex2Upper b3 h3, fromStrRadix_toHex2Upper b2 h2,
      fromStrRadix_toHex2Upper b1 h1, fromStrRadix_toHex2Upper b0 h0]
  rw [hc]
  rfl

theorem display_specGrammar6 (b0 b1 b2 b3 b4 b5 : Nat)
    (h0 : b0 < 256) (h1 : b1 < 256) (h2 : b2 < 256)
    (h3 : b3 < 256) (h4 : b4 < 256) (h5 : b5 < 256) :
    specGrammar (BdAddr.display ⟨[b0, b1, b2, b3, b4, b5]⟩) :=
  ⟨toHex2 b5, toHex2 b4, toHex2 b3, toHex2 b2, toHex2 b1, toHex2 b0, rfl,
    isHex2Group_toHex2 b5 h5, isHex2Group_toHex2 b4 h4, isHex2Group_toHex2 b3 h3,
    isHex2Group_toHex2 b2 h2, isHex2Group_toHex2 b1 h1, isHex2Group_toHex2 b0 h0⟩

theorem exists_six_of_length (bs : List Nat) (hlen : bs.length = 6) :
    ∃ b0 b1 b2 b3 b4 b5, bs = [b0, b1, b2, b3, b4, b5] := by
  rcases bs with _ | ⟨b0, _ | ⟨b1, _ | ⟨b2, _ | ⟨b3, _ | ⟨b4, _ | ⟨b5, _ | ⟨b6, rest⟩⟩⟩⟩⟩⟩⟩ <;>
    simp only [List.length_nil, List.length_cons] at hlen
  · omega
  · omega
  · omega
  · omega
  · omega
  · omega
  · exact ⟨b0, b1, b2, b3, b4, b5, rfl⟩
  · omega

/-- C5: for every 6-byte array `b` (bytes below 256), parsing the `Display`
output of `BdAddr::from(b)` succeeds and yields the same `BdAddr`, and the
`Display` output always satisfies the parse grammar (6 colon-separated
lowercase 2-digit hex octets). -/
theorem c5_display_parse_roundtrip (bs : List Nat) (hlen : bs.length = 6)
    (hb : ∀ x ∈ bs, x < 256) :
    BdAddr.from_str (BdAddr.display (BdAddr.fromBytes bs)) = some (BdAddr.fromBytes bs) ∧
    specGrammar (BdAddr.display (BdAddr.fromBytes bs)) := by
  obtain ⟨b0, b1, b2, b3, b4, b5, rfl⟩ := exists_six_of_length bs hlen
  refine ⟨?_, ?_⟩
  · exact from_str_display6 b0 b1 b2 b3 b4 b5 (hb b0 (by simp)) (hb b1 (by simp))
      (hb b2 (by simp)) (hb b3 (by simp)) (hb b4 (by simp)) (hb b5 (by simp))
  · exact display_specGrammar6 b0 b1 b2 b3 b4 b5 (hb b0 (by simp)) (hb b1 (by simp))
      (hb b2 (by simp)) (hb b3 (by simp)) (hb b4 (by simp)) (hb b5 (by simp))

/-- Witness for C5 at the crate's own test bytes. -/
theorem c5_witness :
    BdAddr.from_str (BdAddr.display (BdAddr.fromBytes [0x00, 0x11, 0x22, 0x33, 0x44, 0x55])) =
      some (BdAddr.fromBytes [0x00, 0x11, 0x22, 0x33, 0x44, 0x55]) ∧
    specGrammar (BdAddr.display (BdAddr.fromBytes [0x00, 0x11, 0x22, 0x33, 0x44, 0x55])) :=
  c5_display_parse_roundtrip [0x00, 0x11, 0x22, 0x33, 0x44, 0x55] (by decide) (by decide)

/-- C9: `Display` renders the 6 stored bytes in reverse storage order as
lowercase 2-digit hex octets joined by colons; in particular
`BdAddr::from([0x00,0x11,0x22,0x33,0x44,0x55])` displays as
`"55:44:33:22:11:00"`. -/
theorem c9_display_reverse_lowercase :
    BdAddr.display (BdAddr.fromBytes [0x00, 0x11, 0x22, 0x33, 0x44, 0x55]) =
      ("55:44:33:22:11:00").data ∧
    ∀ bs : List Nat, bs.length = 6 → (∀ x ∈ bs, x < 256) →
      BdAddr.display (BdAddr.fromBytes bs) = joinColon (bs.reverse.map toHex2) ∧
      specGrammar (BdAddr.display (BdAddr.fromBytes bs)) := by
  refine ⟨by decide, ?_⟩
  intro bs hlen hb
  obtain ⟨b0, b1, b2, b3, b4, b5, rfl⟩ := exists_six_of_length bs hlen
  refine ⟨rfl, ?_⟩
  exact display_specGrammar6 b0 b1 b2 b3 b4 b5 (hb b0 (by simp)) (hb b1 (by simp))
    (hb b2 (by simp)) (hb b3 (by simp)) (hb b4 (by simp)) (hb b5 (by simp))

/-- Witness for C9's quantified part at the spec's example bytes. -/
theorem c9_witness :
    BdAddr.display (BdAddr.fromBytes [0x00, 0x11, 0x22, 0x33, 0x44, 0x55]) =
      joinColon ([0x00, 0x11, 0x22, 0x33, 0x44, 0x55].reverse.map toHex2) ∧
    specGrammar (BdAddr.display (BdAddr.fromBytes [0x00, 0x11, 0x22, 0x33, 0x44, 0x55])) :=
  c9_display_reverse_lowercase.2 [0x00, 0x11, 0x22, 0x33, 0x44, 0x55] (by decide) (by decide)

/-- C10: parsing is case-insensitive in the hex digits — the uppercase
colon-hex rendering of any 6-byte address parses successfully and yields
the same `BdAddr` as parsing the lowercase rendering (while `Display` emits
lowercase only). -/
theorem c10_uppercase_parse (bs : List Nat) (hlen : bs.length = 6)
    (hb : ∀ x ∈ bs, x < 256) :
    BdAddr.from_str (BdAddr.displayUpper (BdAddr.fromBytes bs)) = some (BdAddr.fromBytes bs) ∧
    BdAddr.from_str (BdAddr.displayUpper (BdAddr.fromBytes bs)) =
      BdAddr.from_str (BdAddr.display (BdAddr.fromBytes bs)) := by
  obtain ⟨b0, b1, b2, b3, b4, b5, rfl⟩ := exists_six_of_length bs hlen
  have hu := from_str_displayUpper6 b0 b1 b2 b3 b4 b5 (hb b0 (by simp)) (hb b1 (by simp))
    (hb b2 (by simp)) (hb b3 (by simp)) (hb b4 (by simp)) (hb b5 (by simp))
  have hl := from_str_display6 b0 b1 b2 b3 b4 b5 (hb b0 (by simp)) (hb b1 (by simp))
    (hb b2 (by simp)) (hb b3 (by simp)) (hb b4 (by simp)) (hb b5 (by simp))
  exact ⟨hu, by unfold BdAddr.fromBytes; rw [hu, hl]⟩

/-- Witness for C10 at the spec's example with a letter digit (`0xF5`). -/
theorem c10_witness :
    BdAddr.from_str (BdAddr.displayUpper (BdAddr.fromBytes [0x00, 0x11, 0x22, 0x33, 0x44, 0xF5])) =
      some (BdAddr.fromBytes [0x00, 0x11, 0x22, 0x33, 0x44, 0xF5]) ∧
    BdAddr.from_str (BdAddr.displayUpper (BdAddr.fromBytes [0x00, 0x11, 0x22, 0x33, 0x44, 0xF5])) =
      BdAddr.from_str (BdAddr.display (BdAddr.fromBytes [0x00, 0x11, 0x22, 0x33, 0x44, 0xF5])) :=
  c10_uppercase_parse [0x00, 0x11, 0x22, 0x33, 0x44, 0xF5] (by decide) (by decide)
